import Mathlib

/-!
Verification of the sentiment-refinement core of `sih-final`.

The development shallowly embeds the Python sources:

* `src/utils/utils.py` — `match_keywords` (whole-word keyword counting with
  `re.findall` over patterns of the shape word-boundary + escaped keyword +
  word-boundary);
* `src/model_inference.py` — `load_keywords`, `adjust_sentiment`,
  `analyze_sentiment`, `analyze_batch`.

Python strings are modelled as Lean `String`s (ASCII case folding and the
ASCII `\w` word-character class), floats as rationals, exceptions as
`Except`, the pandas CSV source and the transformer classifier as explicit
oracle parameters.
-/

/-- The upper-to-lower case table of the ASCII range. -/
def upperLower : List (Char × Char) :=
  [('A', 'a'), ('B', 'b'), ('C', 'c'), ('D', 'd'), ('E', 'e'), ('F', 'f'),
   ('G', 'g'), ('H', 'h'), ('I', 'i'), ('J', 'j'), ('K', 'k'), ('L', 'l'),
   ('M', 'm'), ('N', 'n'), ('O', 'o'), ('P', 'p'), ('Q', 'q'), ('R', 'r'),
   ('S', 's'), ('T', 't'), ('U', 'u'), ('V', 'v'), ('W', 'w'), ('X', 'x'),
   ('Y', 'y'), ('Z', 'z')]

/-- ASCII lower-casing of a single character, the model of what Python
`str.lower` does on the ASCII range (the only range exercised here). -/
def pyCharLower (c : Char) : Char :=
  ((upperLower.find? (fun p => p.1 == c)).map Prod.snd).getD c

/-- Model of Python `str.lower`. -/
def pyLower (s : String) : String := String.mk (s.data.map pyCharLower)

/-- Whitespace class stripped by Python `str.strip()` (ASCII part). -/
def isWS (c : Char) : Bool :=
  c == ' ' || c == '\t' || c == '\n' || c == '\r' ||
  c == Char.ofNat 11 || c == Char.ofNat 12

/-- Strip `isWS` characters from both ends of a character list. -/
def stripList (l : List Char) : List Char :=
  ((l.dropWhile isWS).reverse.dropWhile isWS).reverse

/-- Model of Python `str.strip()`. -/
def pyStrip (s : String) : String := String.mk (stripList s.data)

/-- Word characters of the regex class `\w` (ASCII part), as used by the
`\b` boundaries in `match_keywords`. -/
def isWordChar (c : Char) : Bool := c.isAlphanum || c == '_'

/-- Word-character test lifted to an optional character; positions outside
the text count as non-word. -/
def isWordOpt : Option Char → Bool
  | some c => isWordChar c
  | none => false

/-- Literal (escaped-pattern) match of `kw` against a prefix of `s`. -/
def matchesHere : List Char → List Char → Bool
  | [], _ => true
  | _ :: _, [] => false
  | c :: kw, d :: s => c == d && matchesHere kw s

/-- The regex `\b` assertion at position `j` of `s`: exactly one of the
characters around the position is a word character. -/
def boundary (s : List Char) (j : Nat) : Bool :=
  (if j = 0 then false else isWordOpt (s.get? (j - 1))) != isWordOpt (s.get? j)

/-- A match of the pattern `\b` + escaped `kw` + `\b` starting at position
`i` of `s`, exactly as `re` evaluates it: the literal must occur at `i` and
both boundary assertions must hold. -/
def regexMatchAt (s kw : List Char) (i : Nat) : Bool :=
  matchesHere kw (s.drop i) && boundary s i && boundary s (i + kw.length)

/-- The `re.findall` scan: leftmost, non-overlapping matches, starting at
position `i`; after a match the scan resumes past it (one position further
for a zero-width match).  `fuel` is a structural bound on the remaining
scan length; `findallCount` supplies enough of it. -/
def countFromFuel (s kw : List Char) : Nat → Nat → Nat
  | _, 0 => 0
  | i, fuel + 1 =>
    if s.length < i then 0
    else if regexMatchAt s kw i then
      1 + countFromFuel s kw (i + max kw.length 1) fuel
    else countFromFuel s kw (i + 1) fuel

/-- Number of matches `re.findall` returns for the keyword pattern in `s`. -/
def findallCount (s kw : List Char) : Nat :=
  countFromFuel s kw 0 (s.length + 1)

/-- Model of `match_keywords` from `src/utils/utils.py`: lower-case the
text, and for every keyword add the number of `re.findall` matches of the
pattern `\b` + `re.escape(keyword.lower())` + `\b`. -/
def match_keywords (text : String) (keywords : List String) : Nat :=
  keywords.foldl
    (fun count keyword =>
      count + findallCount (pyLower text).data (pyLower keyword).data) 0

/-- A whole-word occurrence in the words of the specification: the keyword
occurs literally at position `i` and is bounded on each side by a non-word
character or a text edge. -/
def specMatchAt (s kw : List Char) (i : Nat) : Bool :=
  matchesHere kw (s.drop i) &&
  (decide (i = 0) || !isWordOpt (s.get? (i - 1))) &&
  !isWordOpt (s.get? (i + kw.length))

/-- Number of whole-word, case-insensitive occurrence positions of keyword
`k` in text `T` (the specification-side counting for one keyword). -/
def wholeWordOccs (T k : String) : Nat :=
  (List.range ((pyLower T).data.length + 1)).countP
    (fun i => specMatchAt (pyLower T).data (pyLower k).data i)

/-- The three keyword lists of `src/model_inference.py` (the globals
`POSITIVE_KEYWORDS`, `NEGATIVE_KEYWORDS`, `NEUTRAL_KEYWORDS`), passed
explicitly. -/
structure Keywords where
  positive : List String
  negative : List String
  neutral : List String

/-- Model of `adjust_sentiment` from `src/model_inference.py`.  `score` is
the classifier confidence (a Python float, modelled as a rational); the
hard-coded threshold `0.9` is written `mkRat 9 10`. -/
def adjust_sentiment (kws : Keywords) (text sentiment : String) (score : ℚ) :
    String × String :=
  if pyStrip text = "" then ("Neutral", "Neutral (Pure Neutral)")
  else
    let text_lower := pyLower text
    let pos_hits := match_keywords text_lower kws.positive
    let neg_hits := match_keywords text_lower kws.negative
    let neu_hits := match_keywords text_lower kws.neutral
    if neu_hits > 0 ∧ score < mkRat 9 10 then
      ("Neutral",
        if pos_hits > neg_hits then "Neutral (Dominantly Positive)"
        else if neg_hits > pos_hits then "Neutral (Dominantly Negative)"
        else "Neutral (Pure Neutral)")
    else
      if sentiment = "Neutral" then
        (sentiment,
          if neg_hits > pos_hits then "Neutral (Dominantly Negative)"
          else if pos_hits > neg_hits then "Neutral (Dominantly Positive)"
          else "Neutral (Pure Neutral)")
      else if sentiment = "Positive" ∧ score < mkRat 9 10 ∧
          neg_hits ≥ pos_hits + 2 then
        (sentiment, "Neutral (Dominantly Negative)")
      else if sentiment = "Negative" ∧ score < mkRat 9 10 ∧
          pos_hits ≥ neg_hits + 2 then
        (sentiment, "Neutral (Dominantly Positive)")
      else (sentiment, sentiment)

/-- Python values that occur in comment records and analysis results:
strings and numbers (floats modelled as rationals). -/
inductive Value where
  | str (s : String)
  | rat (q : ℚ)
deriving DecidableEq

/-- Floor of a rational, via flooring integer division. -/
def ratFloor (q : ℚ) : ℤ := Int.fdiv q.num q.den

/-- Round a rational to the nearest integer, ties to even — the model of
Python `round` on the scaled score. -/
def roundHalfEven (q : ℚ) : ℤ :=
  let f := ratFloor q
  if q - f < mkRat 1 2 then f
  else if mkRat 1 2 < q - f then f + 1
  else if f % 2 = 0 then f else f + 1

/-- Model of Python `round(x, 3)`. -/
def round3 (q : ℚ) : ℚ := mkRat (roundHalfEven (q * 1000)) 1000

/-- A Python value as a batch element: either a dict (modelled as an
ordered association list with distinct keys) or a plain non-dict value
carrying its `str()` form. -/
inductive PyVal where
  | dict (entries : List (String × Value))
  | str (s : String)
deriving DecidableEq

/-- Whether a batch element is a Python dict. -/
def PyVal.isDict : PyVal → Bool
  | .dict _ => true
  | .str _ => false

/-- First value stored under string key `k` in an association list. -/
def lookupKey {α : Type} (k : String) : List (String × α) → Option α
  | [] => none
  | (k2, v) :: rest => if k2 = k then some v else lookupKey k rest

/-- A single quote character, used by the `repr` model. -/
def singleQuote : String := (Char.ofNat 39).toString

/-- Model of Python `repr` for the values above (only its shape matters;
no claim inspects it). -/
def valRepr : Value → String
  | .str s => singleQuote ++ s ++ singleQuote
  | .rat q => toString q.num ++ (if q.den = 1 then "" else "/" ++ toString q.den)

/-- Model of Python `str()` on a dict. -/
def dictRepr (d : List (String × Value)) : String :=
  "\x7b" ++
    String.intercalate ", "
      (d.map (fun kv => valRepr (Value.str kv.1) ++ ": " ++ valRepr kv.2)) ++
    "\x7d"

/-- Model of Python `str()` on a batch element. -/
def pyStr : PyVal → String
  | .dict d => dictRepr d
  | .str s => s

/-- One step of Python `dict.update`: set key `k` to `v`, replacing the
value in place when the key is present and appending otherwise. -/
def updateOne : List (String × Value) → String → Value → List (String × Value)
  | [], k, v => [(k, v)]
  | (k1, v1) :: rest, k, v =>
    if k1 = k then (k1, v) :: rest else (k1, v1) :: updateOne rest k v

/-- Python `result.update(upds)`: apply every update in order. -/
def dictUpdate (d : List (String × Value)) (upds : List (String × Value)) :
    List (String × Value) :=
  upds.foldl (fun acc kv => updateOne acc kv.1 kv.2) d

/-- Model of `analyze_sentiment` from `src/model_inference.py`.  The
transformer pipeline is the oracle `classify`, returning the raw label
string (`LABEL_0` / `LABEL_1` / `LABEL_2`) and the confidence. -/
def analyze_sentiment (kws : Keywords) (classify : String → String × ℚ)
    (text : String) : List (String × Value) :=
  if pyStrip text = "" then
    [("text", Value.str text),
     ("sentiment_main", Value.str "Neutral"),
     ("sentiment_sub", Value.str "Neutral (Pure Neutral)"),
     ("score", Value.rat 0)]
  else
    let result := classify text
    let sentiment :=
      if result.1 = "LABEL_0" then "Negative"
      else if result.1 = "LABEL_1" then "Neutral"
      else "Positive"
    let ms := adjust_sentiment kws text sentiment result.2
    [("text", Value.str text),
     ("sentiment_main", Value.str ms.1),
     ("sentiment_sub", Value.str ms.2),
     ("score", Value.rat (round3 result.2))]

/-- The text used for a batch element: the `text` entry of a dict that has
one (an `AttributeError` is raised later if that entry is not a string, at
`text.strip()`), and `str(comment)` otherwise. -/
def getText : PyVal → Except String String
  | .dict d =>
    match lookupKey "text" d with
    | some (Value.str t) => .ok t
    | some _ => .error "AttributeError"
    | none => .ok (pyStr (.dict d))
  | v => .ok (pyStr v)

/-- `comment.items()`: succeeds only on dicts, raising `AttributeError`
otherwise. -/
def itemsOf : PyVal → Except String (List (String × Value))
  | .dict d => .ok d
  | _ => .error "AttributeError"

/-- Model of `analyze_batch` from `src/model_inference.py`.  Exceptions
propagate, aborting the whole batch, which the model renders as
`Except.error`. -/
def analyze_batch (kws : Keywords) (classify : String → String × ℚ) :
    List PyVal → Except String (List (List (String × Value)))
  | [] => .ok []
  | comment :: rest =>
    match getText comment with
    | .error e => .error e
    | .ok text =>
      let result := analyze_sentiment kws classify text
      match itemsOf comment with
      | .error e => .error e
      | .ok items =>
        match analyze_batch kws classify rest with
        | .error e => .error e
        | .ok others =>
          .ok (dictUpdate result (items.filter (fun kv => kv.1 != "text")) :: others)

/-- A parsed tabular source, the model of a pandas data frame: named
columns of cells, a cell being `none` for NaN and otherwise the `str()`
form of its value. -/
structure Table where
  columns : List (String × List (Option String))

/-- Outcome of one `pd.read_csv(path, encoding=e)` attempt. -/
inductive ReadResult where
  | ok (t : Table)
  | decodeError
  | failure (msg : String)

/-- The encodings `load_keywords` tries, in order. -/
def encodings : List String := ["utf-8", "latin1", "iso-8859-1"]

/-- The for/else loop of `load_keywords`: try each encoding; a
`UnicodeDecodeError` moves on to the next one, any other error propagates,
and exhausting the list raises `ValueError`. -/
def tryEncodings (path : String) (read : String → ReadResult) :
    List String → Except String Table
  | [] => .error ("Could not decode " ++ path ++ " with available encodings")
  | e :: rest =>
    match read e with
    | .ok t => .ok t
    | .decodeError => tryEncodings path read rest
    | .failure msg => .error msg

/-- The body of the `try` block of `load_keywords`: decode, require a
`keyword` column, then `dropna`, lower-case, strip, and require a
non-empty list. -/
def load_keywords_body (path : String) (read : String → ReadResult) :
    Except String (List String) :=
  match tryEncodings path read encodings with
  | .error e => .error e
  | .ok df =>
    match lookupKey "keyword" df.columns with
    | none => .error (path ++ " must contain a keyword column")
    | some cells =>
      let keywords := (cells.filterMap id).map (fun s => pyStrip (pyLower s))
      if keywords.isEmpty then .error (path ++ " contains no valid keywords")
      else .ok keywords

/-- Model of `load_keywords` from `src/model_inference.py`: any failure of
the body is caught, logged, and collapsed to the empty list. -/
def load_keywords (path : String) (read : String → ReadResult) : List String :=
  match load_keywords_body path read with
  | .ok keywords => keywords
  | .error _ => []

/-- A concrete source whose table has no `keyword` column. -/
def readMissingCol : String → ReadResult :=
  fun _ => ReadResult.ok ⟨[("id", [some "1"])]⟩

/-- A concrete source whose `keyword` column holds an upper-case keyword
and a whitespace-only cell. -/
def readWhitespaceKeyword : String → ReadResult :=
  fun _ => ReadResult.ok ⟨[("keyword", [some "OK", some "  "])]⟩

/-! ### Helper lemmas: case folding and stripping -/

theorem pyCharLower_snd_fixed :
    ∀ p ∈ upperLower, pyCharLower p.2 = p.2 := by decide

theorem pyCharLower_idem (c : Char) :
    pyCharLower (pyCharLower c) = pyCharLower c := by
  cases hf : upperLower.find? (fun p => p.1 == c) with
  | none =>
    have hc : pyCharLower c = c := by unfold pyCharLower; rw [hf]; rfl
    rw [hc, hc]
  | some p =>
    have hc : pyCharLower c = p.2 := by unfold pyCharLower; rw [hf]; rfl
    rw [hc]
    exact pyCharLower_snd_fixed p (List.mem_of_find?_eq_some hf)

theorem dropWhile_head_false {p : Char → Bool} :
    ∀ {l : List Char} {a : Char} {t : List Char},
      l.dropWhile p = a :: t → p a = false := by
  intro l
  induction l with
  | nil => intro a t h; simp [List.dropWhile] at h
  | cons b l ih =>
    intro a t h
    rw [List.dropWhile_cons] at h
    by_cases hb : p b
    · simp [hb] at h; exact ih h
    · simp [hb] at h
      obtain ⟨rfl, -⟩ := h
      simpa using hb

theorem dropWhile_idem (p : Char → Bool) (l : List Char) :
    (l.dropWhile p).dropWhile p = l.dropWhile p := by
  cases h : l.dropWhile p with
  | nil => rfl
  | cons a t =>
    have := dropWhile_head_false h
    simp [List.dropWhile_cons, this]

theorem stripList_idem (l : List Char) :
    stripList (stripList l) = stripList l := by
  unfold stripList
  cases hm : ((l.dropWhile isWS).reverse.dropWhile isWS).reverse with
  | nil => simp
  | cons a t =>
    have hd2ne : (l.dropWhile isWS).reverse.dropWhile isWS ≠ [] := by
      intro h; rw [h] at hm; simp at hm
    have hd1ne : l.dropWhile isWS ≠ [] := by
      intro h; rw [h] at hd2ne; simp at hd2ne
    obtain ⟨pre, hpre⟩ :
        (l.dropWhile isWS).reverse.dropWhile isWS <:+ (l.dropWhile isWS).reverse :=
      List.dropWhile_suffix isWS
    -- the head of the stripped list is the head of `l.dropWhile isWS`
    have hlast :
        ((l.dropWhile isWS).reverse.dropWhile isWS).getLast? =
          (l.dropWhile isWS).head? := by
      have h1 : (l.dropWhile isWS).reverse.getLast? =
          ((l.dropWhile isWS).reverse.dropWhile isWS).getLast? := by
        conv_lhs => rw [← hpre]
        rw [List.getLast?_append]
        cases hg : ((l.dropWhile isWS).reverse.dropWhile isWS).getLast? with
        | none => exact absurd (List.getLast?_eq_none_iff.mp hg) hd2ne
        | some b => rfl
      rw [← h1, List.getLast?_reverse]
    have hheadws : isWS a = false := by
      cases hd1c : l.dropWhile isWS with
      | nil => exact absurd hd1c hd1ne
      | cons b t1 =>
        have hb : isWS b = false := dropWhile_head_false hd1c
        have hab : a = b := by
          have := hlast
          rw [← List.head?_reverse, hm, hd1c] at this
          simpa using this
        rwa [hab]
    rw [← hm, hm, List.dropWhile_cons, hheadws]
    simp only [Bool.false_eq_true, if_false, ← hm]
    rw [List.reverse_reverse, dropWhile_idem]

theorem mem_stripList {c : Char} {l : List Char} (h : c ∈ stripList l) :
    c ∈ l := by
  unfold stripList at h
  rw [List.mem_reverse] at h
  have h2 : c ∈ (l.dropWhile isWS).reverse :=
    (List.dropWhile_suffix isWS).subset h
  rw [List.mem_reverse] at h2
  exact (List.dropWhile_suffix isWS).subset h2

theorem stripList_map_lower (l : List Char) :
    (stripList (l.map pyCharLower)).map pyCharLower =
      stripList (l.map pyCharLower) := by
  have hmem : ∀ c ∈ stripList (l.map pyCharLower), pyCharLower c = c := by
    intro c hc
    obtain ⟨d, -, rfl⟩ := List.mem_map.mp (mem_stripList hc)
    exact pyCharLower_idem d
  calc (stripList (l.map pyCharLower)).map pyCharLower
      = (stripList (l.map pyCharLower)).map id := List.map_congr_left hmem
    _ = _ := List.map_id _

theorem pyStrip_pyStrip (s : String) : pyStrip (pyStrip s) = pyStrip s := by
  unfold pyStrip
  rw [stripList_idem]

theorem pyLower_pyStrip_pyLower (s : String) :
    pyLower (pyStrip (pyLower s)) = pyStrip (pyLower s) := by
  unfold pyLower pyStrip
  rw [stripList_map_lower]

/-! ### Helper lemmas: association lists and `dict.update` -/

theorem lookupKey_updateOne_self (d : List (String × Value)) (k : String)
    (v : Value) : lookupKey k (updateOne d k v) = some v := by
  induction d with
  | nil => simp [updateOne, lookupKey]
  | cons kv rest ih =>
    obtain ⟨k1, v1⟩ := kv
    by_cases hk : k1 = k
    · subst hk
      simp [updateOne, lookupKey]
    · simp [updateOne, lookupKey, hk, ih]

theorem lookupKey_updateOne_other (d : List (String × Value)) {k k2 : String}
    (v : Value) (h : k ≠ k2) :
    lookupKey k (updateOne d k2 v) = lookupKey k d := by
  induction d with
  | nil => simp [updateOne, lookupKey, Ne.symm h]
  | cons kv rest ih =>
    obtain ⟨k1, v1⟩ := kv
    by_cases hk : k1 = k2
    · subst hk
      simp [updateOne, lookupKey, Ne.symm h]
    · by_cases hkk : k1 = k
      · subst hkk
        simp [updateOne, lookupKey, hk]
      · simp [updateOne, lookupKey, hk, hkk, ih]

theorem lookupKey_dictUpdate_none (d : List (String × Value)) {k : String} :
    ∀ {upds : List (String × Value)}, lookupKey k upds = none →
      lookupKey k (dictUpdate d upds) = lookupKey k d := by
  intro upds
  induction upds generalizing d with
  | nil => intro _; rfl
  | cons kv rest ih =>
    obtain ⟨k1, v1⟩ := kv
    intro h
    by_cases hk : k1 = k
    · simp [lookupKey, hk] at h
    · simp only [lookupKey, hk, if_false] at h
      show lookupKey k (dictUpdate (updateOne d k1 v1) rest) = _
      rw [ih (updateOne d k1 v1) h]
      exact lookupKey_updateOne_other d v1 (fun he => hk he.symm)

theorem lookupKey_not_mem_none {k : String} :
    ∀ {upds : List (String × Value)}, k ∉ upds.map Prod.fst →
      lookupKey k upds = none := by
  intro upds
  induction upds with
  | nil => intro _; rfl
  | cons kv rest ih =>
    obtain ⟨k1, v1⟩ := kv
    intro h
    rw [List.map_cons, List.mem_cons] at h
    push_neg at h
    have hk : ¬ k1 = k := fun he => h.1 he.symm
    simp only [lookupKey, hk, if_false]
    exact ih h.2

theorem lookupKey_dictUpdate_some (d : List (String × Value)) {k : String}
    {v : Value} :
    ∀ {upds : List (String × Value)}, (upds.map Prod.fst).Nodup →
      lookupKey k upds = some v →
      lookupKey k (dictUpdate d upds) = some v := by
  intro upds
  induction upds generalizing d with
  | nil => intro _ h; simp [lookupKey] at h
  | cons kv rest ih =>
    obtain ⟨k1, v1⟩ := kv
    intro hnd h
    rw [List.map_cons, List.nodup_cons] at hnd
    by_cases hk : k1 = k
    · subst hk
      have hv : v1 = v := by simpa [lookupKey] using h
      have hnone : lookupKey k1 rest = none := lookupKey_not_mem_none hnd.1
      show lookupKey k1 (dictUpdate (updateOne d k1 v1) rest) = some v
      rw [lookupKey_dictUpdate_none _ hnone, lookupKey_updateOne_self, hv]
    · simp only [lookupKey, hk, if_false] at h
      exact ih (updateOne d k1 v1) hnd.2 h

theorem lookupKey_filter_self (d : List (String × Value)) (k : String) :
    lookupKey k (d.filter (fun kv => kv.1 != k)) = none := by
  induction d with
  | nil => rfl
  | cons kv rest ih =>
    obtain ⟨k1, v1⟩ := kv
    by_cases hk : k1 = k
    · subst hk
      simpa [List.filter_cons] using ih
    · simp [List.filter_cons, bne_iff_ne.mpr hk, lookupKey, hk, ih]

theorem lookupKey_filter_other (d : List (String × Value)) {k k2 : String}
    (h : k ≠ k2) :
    lookupKey k (d.filter (fun kv => kv.1 != k2)) = lookupKey k d := by
  induction d with
  | nil => rfl
  | cons kv rest ih =>
    obtain ⟨k1, v1⟩ := kv
    by_cases hk : k1 = k2
    · subst hk
      have hk1 : ¬ k1 = k := fun he => h he.symm
      simp [List.filter_cons, lookupKey, hk1, ih]
    · simp [List.filter_cons, bne_iff_ne.mpr hk, lookupKey, ih]

theorem nodup_filter_keys (d : List (String × Value)) (p : String × Value → Bool)
    (h : (d.map Prod.fst).Nodup) : ((d.filter p).map Prod.fst).Nodup :=
  ((List.filter_sublist d).map Prod.fst).nodup h

theorem lookupKey_analyze_text (kws : Keywords) (classify : String → String × ℚ)
    (text : String) :
    lookupKey "text" (analyze_sentiment kws classify text) =
      some (Value.str text) := by
  unfold analyze_sentiment
  by_cases h : pyStrip text = "" <;> simp [h, lookupKey]

/-! ### Helper lemmas: the `findall` scan against positional counting -/

theorem matchesHere_length :
    ∀ {kw s : List Char}, matchesHere kw s = true → kw.length ≤ s.length := by
  intro kw
  induction kw with
  | nil => intro s _; simp
  | cons c kt ih =>
    intro s h
    cases s with
    | nil => simp [matchesHere] at h
    | cons d st =>
      rw [matchesHere, Bool.and_eq_true] at h
      simpa using ih h.2

theorem matchesHere_get? :
    ∀ {kw s : List Char}, matchesHere kw s = true →
      ∀ t, t < kw.length → s.get? t = kw.get? t := by
  intro kw
  induction kw with
  | nil => intro s _ t ht; simp at ht
  | cons c kt ih =>
    intro s h t ht
    cases s with
    | nil => simp [matchesHere] at h
    | cons d st =>
      rw [matchesHere, Bool.and_eq_true] at h
      have hcd : c = d := by simpa using h.1
      cases t with
      | zero => simp [hcd]
      | succ t2 =>
        simp only [List.get?]
        exact ih h.2 t2 (by simpa using ht)

theorem word_of_get? {kw : List Char} (hw : ∀ c ∈ kw, isWordChar c = true)
    {t : Nat} {c : Char} (h : kw.get? t = some c) : isWordChar c = true :=
  hw c (List.get?_mem h)

theorem regex_eq_spec {s kw : List Char} (hne : kw ≠ [])
    (hw : ∀ c ∈ kw, isWordChar c = true) (i : Nat) :
    regexMatchAt s kw i = specMatchAt s kw i := by
  unfold regexMatchAt specMatchAt
  cases hm : matchesHere kw (s.drop i) with
  | false => simp
  | true =>
    simp only [Bool.true_and]
    obtain ⟨c0, kt, rfl⟩ := List.exists_cons_of_ne_nil hne
    have hsi : s.get? i = some c0 := by
      have := matchesHere_get? hm 0 (by simp)
      rw [List.get?_drop] at this
      simpa using this
    have hw0 : isWordChar c0 = true := hw c0 (by simp)
    have hL : boundary s i = (decide (i = 0) || !isWordOpt (s.get? (i - 1))) := by
      unfold boundary
      rw [hsi]
      simp only [isWordOpt, hw0]
      by_cases h0 : i = 0
      · simp [h0]
      · simp [h0, Bool.bne_true]
    have hlastc : ∃ cl, s.get? (i + (c0 :: kt).length - 1) = some cl ∧
        isWordChar cl = true := by
      have hlt : (c0 :: kt).length - 1 < (c0 :: kt).length := by simp
      have hg := matchesHere_get? hm ((c0 :: kt).length - 1) hlt
      rw [List.get?_drop] at hg
      cases hgk : (c0 :: kt).get? ((c0 :: kt).length - 1) with
      | none =>
        rw [hgk] at hg
        rw [List.get?_eq_none] at hgk
        omega
      | some cl =>
        refine ⟨cl, ?_, word_of_get? hw hgk⟩
        rw [hgk] at hg
        have harith : i + (c0 :: kt).length - 1 = i + ((c0 :: kt).length - 1) := by
          simp only [List.length_cons]
          omega
        rw [harith, hg]
    have hR : boundary s (i + (c0 :: kt).length) =
        !isWordOpt (s.get? (i + (c0 :: kt).length)) := by
      unfold boundary
      obtain ⟨cl, hcl, hclw⟩ := hlastc
      have hnz : ¬ (i + (c0 :: kt).length = 0) := by simp
      rw [if_neg hnz, hcl]
      simp only [isWordOpt, hclw, Bool.true_bne]
    rw [hL, hR]

theorem spec_no_overlap {s kw : List Char} {i : Nat}
    (hm : matchesHere kw (s.drop i) = true)
    (hw : ∀ c ∈ kw, isWordChar c = true) {j : Nat}
    (h1 : i < j) (h2 : j < i + kw.length) : specMatchAt s kw j = false := by
  have ht : j - 1 - i < kw.length := by omega
  have hg := matchesHere_get? hm (j - 1 - i) ht
  rw [List.get?_drop] at hg
  have harith : i + (j - 1 - i) = j - 1 := by omega
  rw [harith] at hg
  cases hgk : kw.get? (j - 1 - i) with
  | none =>
    rw [List.get?_eq_none] at hgk
    omega
  | some c =>
    rw [hgk] at hg
    have hcw : isWordChar c = true := word_of_get? hw hgk
    unfold specMatchAt
    rw [hg]
    have hj0 : ¬ (j = 0) := by omega
    simp [isWordOpt, hcw, hj0]

theorem countFromFuel_spec (s kw : List Char) (hne : kw ≠ [])
    (hw : ∀ c ∈ kw, isWordChar c = true) :
    ∀ (fuel i : Nat), s.length + 1 ≤ i + fuel →
      countFromFuel s kw i fuel =
        (List.range' i (s.length + 1 - i)).countP
          (fun j => specMatchAt s kw j) := by
  intro fuel
  induction fuel with
  | zero =>
    intro i hi
    have h0 : s.length + 1 - i = 0 := by omega
    rw [h0]
    rfl
  | succ fuel ih =>
    intro i hi
    rw [countFromFuel]
    by_cases hlt : s.length < i
    · rw [if_pos hlt]
      have h0 : s.length + 1 - i = 0 := by omega
      rw [h0]
      rfl
    · rw [if_neg hlt]
      push_neg at hlt
      have hrange : s.length + 1 - i = (s.length - i) + 1 := by omega
      rw [hrange]
      have hcons : List.range' i (s.length - i + 1) =
          i :: List.range' (i + 1) (s.length - i) := rfl
      rw [hcons, List.countP_cons]
      by_cases hmt : regexMatchAt s kw i = true
      · rw [if_pos hmt]
        have hmm : matchesHere kw (s.drop i) = true := by
          unfold regexMatchAt at hmt
          simp only [Bool.and_eq_true] at hmt
          exact hmt.1.1
        have hspec : specMatchAt s kw i = true := by
          rw [← regex_eq_spec hne hw]; exact hmt
        have hlen1 : 1 ≤ kw.length := List.length_pos.mpr hne
        have hlen2 : kw.length ≤ s.length - i := by
          have := matchesHere_length hmm
          rwa [List.length_drop] at this
        have hmax : max kw.length 1 = kw.length := by omega
        rw [hmax, ih (i + kw.length) (by omega)]
        -- split the remaining positions at the end of the match
        have hsplit : List.range' (i + 1) (s.length - i) =
            List.range' (i + 1) (kw.length - 1) ++
              List.range' (i + kw.length) (s.length + 1 - (i + kw.length)) := by
          have := List.range'_append (i + 1) (kw.length - 1)
            (s.length + 1 - (i + kw.length)) 1
          rw [show i + 1 + 1 * (kw.length - 1) = i + kw.length by omega] at this
          rw [show s.length + 1 - (i + kw.length) + (kw.length - 1) =
            s.length - i by omega] at this
          exact this.symm
        rw [hsplit, List.countP_append]
        have hzero : (List.range' (i + 1) (kw.length - 1)).countP
            (fun j => specMatchAt s kw j) = 0 := by
          rw [List.countP_eq_zero]
          intro j hj
          rw [List.mem_range'] at hj
          obtain ⟨t, htlt, hjt⟩ := hj
          have hfalse := spec_no_overlap hmm hw
            (show i < j by omega) (show j < i + kw.length by omega)
          simp [hfalse]
        rw [hzero, if_pos hspec]
        omega
      · rw [if_neg hmt]
        have hspec : specMatchAt s kw i = false := by
          rw [← regex_eq_spec hne hw]
          simpa using hmt
        rw [ih (i + 1) (by omega), if_neg (by simp [hspec])]
        have : s.length + 1 - (i + 1) = s.length - i := by omega
        rw [this]
        omega

theorem findallCount_spec (s kw : List Char) (hne : kw ≠ [])
    (hw : ∀ c ∈ kw, isWordChar c = true) :
    findallCount s kw =
      (List.range (s.length + 1)).countP (fun j => specMatchAt s kw j) := by
  unfold findallCount
  rw [countFromFuel_spec s kw hne hw (s.length + 1) 0 (by omega)]
  rw [List.range_eq_range']
  rfl

theorem foldl_add_init (f : String → Nat) (L : List String) :
    ∀ a, L.foldl (fun c k => c + f k) a = a + L.foldl (fun c k => c + f k) 0 := by
  induction L with
  | nil => intro a; simp
  | cons k L ih =>
    intro a
    simp only [List.foldl_cons]
    rw [ih (a + f k), ih (0 + f k)]
    omega

theorem match_keywords_cons (T k : String) (L : List String) :
    match_keywords T (k :: L) =
      findallCount (pyLower T).data (pyLower k).data + match_keywords T L := by
  unfold match_keywords
  simp only [List.foldl_cons]
  rw [foldl_add_init]
  omega

theorem match_keywords_sum (T : String) (L : List String)
    (h : ∀ k ∈ L, (pyLower k).data ≠ [] ∧
      ∀ c ∈ (pyLower k).data, isWordChar c = true) :
    match_keywords T L = (L.map (fun k => wholeWordOccs T k)).sum := by
  induction L with
  | nil => rfl
  | cons k L ih =>
    rw [match_keywords_cons, List.map_cons, List.sum_cons]
    obtain ⟨hne, hw⟩ := h k (by simp)
    rw [findallCount_spec _ _ hne hw]
    rw [ih (fun k2 hk2 => h k2 (by simp [hk2]))]
    rfl

/-! ### Helper lemmas: the batch runner -/

theorem analyze_batch_ok_dict (kws : Keywords) (classify : String → String × ℚ) :
    ∀ {comments : List PyVal} {rs : List (List (String × Value))},
      analyze_batch kws classify comments = .ok rs →
      ∀ c ∈ comments, c.isDict = true := by
  intro comments
  induction comments with
  | nil => intro rs _ c hc; simp at hc
  | cons c0 rest ih =>
    intro rs h c hc
    rw [analyze_batch] at h
    cases hg : getText c0 with
    | error e => rw [hg] at h; simp at h
    | ok text =>
      rw [hg] at h
      cases hit : itemsOf c0 with
      | error e => rw [hit] at h; simp at h
      | ok items =>
        rw [hit] at h
        cases hb : analyze_batch kws classify rest with
        | error e => rw [hb] at h; simp at h
        | ok others =>
          rcases List.mem_cons.mp hc with rfl | hmem
          · cases c with
            | dict d => rfl
            | str s => simp [itemsOf] at hit
          · exact ih hb c hmem

theorem analyze_batch_dicts (kws : Keywords) (classify : String → String × ℚ) :
    ∀ {comments : List PyVal},
      (∀ c ∈ comments, ∃ d t, c = PyVal.dict d ∧
        lookupKey "text" d = some (Value.str t)) →
      ∃ rs, analyze_batch kws classify comments = .ok rs ∧
        rs.length = comments.length ∧
        ∀ i d t, comments.get? i = some (PyVal.dict d) →
          lookupKey "text" d = some (Value.str t) →
          rs.get? i = some (dictUpdate (analyze_sentiment kws classify t)
            (d.filter (fun kv => kv.1 != "text"))) := by
  intro comments
  induction comments with
  | nil =>
    intro _
    refine ⟨[], rfl, rfl, ?_⟩
    intro i d t hc
    simp at hc
  | cons c0 rest ih =>
    intro h
    obtain ⟨d0, t0, rfl, hl0⟩ := h c0 (by simp)
    obtain ⟨rs, hok, hlen, hidx⟩ := ih (fun c hc => h c (List.mem_cons_of_mem _ hc))
    have hget : getText (PyVal.dict d0) = .ok t0 := by
      simp only [getText, hl0]
    refine ⟨dictUpdate (analyze_sentiment kws classify t0)
        (d0.filter (fun kv => kv.1 != "text")) :: rs, ?_, by simp [hlen], ?_⟩
    · rw [analyze_batch, hget]
      simp only [itemsOf, hok]
    · intro i d t hc hl
      cases i with
      | zero =>
        have hd : d = d0 := by
          have := hc
          simp only [List.get?] at this
          injection this with h2
          injection h2 with h3
          exact h3.symm
        subst hd
        have ht : t = t0 := by
          rw [hl] at hl0
          simpa using hl0
        subst ht
        rfl
      | succ i2 =>
        exact hidx i2 d t (by simpa using hc) hl

/-! ### Claim theorems -/

/-- C2: for every non-empty text with `neuHits > 0` and confidence strictly
below 0.9, the refinement engine forces `sentiment_main = Neutral`
regardless of the raw label, with `sentiment_sub` resolved by the pos/neg
hit tie-break (`posHits > negHits` → "Neutral (Dominantly Positive)",
`negHits > posHits` → "Neutral (Dominantly Negative)", equal →
"Neutral (Pure Neutral)"). -/
theorem c2_neutral_override (kws : Keywords) (text sentiment : String)
    (score : ℚ) (h1 : ¬ pyStrip text = "")
    (h2 : match_keywords (pyLower text) kws.neutral > 0)
    (h3 : score < mkRat 9 10) :
    adjust_sentiment kws text sentiment score =
      ("Neutral",
        if match_keywords (pyLower text) kws.positive >
            match_keywords (pyLower text) kws.negative then
          "Neutral (Dominantly Positive)"
        else if match_keywords (pyLower text) kws.negative >
            match_keywords (pyLower text) kws.positive then
          "Neutral (Dominantly Negative)"
        else "Neutral (Pure Neutral)") := by
  unfold adjust_sentiment
  rw [if_neg h1, if_pos ⟨h2, h3⟩]

/-- C2 witness: a concrete neutral-keyword override at confidence 0.5. -/
theorem c2_neutral_override_witness :
    adjust_sentiment ⟨[], [], ["maybe"]⟩ "maybe" "Positive" (mkRat 1 2) =
      ("Neutral", "Neutral (Pure Neutral)") := by
  rw [c2_neutral_override ⟨[], [], ["maybe"]⟩ "maybe" "Positive" (mkRat 1 2)
    (by decide) (by decide) (by decide)]
  decide

/-- C3: for every non-empty text with raw label Positive and confidence at
or above the 0.9 threshold, the output is (Positive, Positive) no matter
how many negative or neutral keywords match: both the demotion and the
neutral-keyword override compare confidence with a strict `<`. -/
theorem c3_threshold_no_demotion (kws : Keywords) (text : String) (score : ℚ)
    (h1 : ¬ pyStrip text = "") (h2 : mkRat 9 10 ≤ score) :
    adjust_sentiment kws text "Positive" score = ("Positive", "Positive") := by
  unfold adjust_sentiment
  rw [if_neg h1]
  have hnlt : ¬ score < mkRat 9 10 := not_lt.mpr h2
  rw [if_neg (by intro hand; exact hnlt hand.2)]
  rw [if_neg (by decide : ¬ ("Positive" : String) = "Neutral")]
  rw [if_neg (by intro hand; exact hnlt hand.2.1)]
  rw [if_neg (by intro hand; exact absurd hand.1 (by decide))]

/-- C3 witness: confidence exactly 0.9 with three matching negative
keyword hits and a matching neutral keyword still yields
(Positive, Positive). -/
theorem c3_threshold_no_demotion_witness :
    adjust_sentiment ⟨[], ["bad"], ["maybe"]⟩ "bad bad bad maybe" "Positive"
      (mkRat 9 10) = ("Positive", "Positive") :=
  c3_threshold_no_demotion ⟨[], ["bad"], ["maybe"]⟩ "bad bad bad maybe"
    (mkRat 9 10) (by decide) (by decide)

/-- C4: empty or whitespace-only text short-circuits: `adjust_sentiment`
returns (Neutral, "Neutral (Pure Neutral)") regardless of raw label,
confidence and keyword lists, and `analyze_sentiment` additionally reports
score 0.0. -/
theorem c4_blank_text (kws : Keywords) (classify : String → String × ℚ)
    (text sentiment : String) (score : ℚ) (h : pyStrip text = "") :
    adjust_sentiment kws text sentiment score =
      ("Neutral", "Neutral (Pure Neutral)") ∧
    analyze_sentiment kws classify text =
      [("text", Value.str text),
       ("sentiment_main", Value.str "Neutral"),
       ("sentiment_sub", Value.str "Neutral (Pure Neutral)"),
       ("score", Value.rat 0)] := by
  constructor
  · unfold adjust_sentiment
    rw [if_pos h]
  · unfold analyze_sentiment
    rw [if_pos h]

/-- C4 witness: a three-space text with hostile raw label, confidence and
keyword lists still comes out pure neutral with score 0. -/
theorem c4_blank_text_witness :
    adjust_sentiment ⟨["good"], ["bad"], ["maybe"]⟩ "   " "Positive"
      (mkRat 99 100) = ("Neutral", "Neutral (Pure Neutral)") ∧
    analyze_sentiment ⟨["good"], ["bad"], ["maybe"]⟩
      (fun _ => ("LABEL_2", mkRat 99 100)) "   " =
      [("text", Value.str "   "),
       ("sentiment_main", Value.str "Neutral"),
       ("sentiment_sub", Value.str "Neutral (Pure Neutral)"),
       ("score", Value.rat 0)] :=
  c4_blank_text ⟨["good"], ["bad"], ["maybe"]⟩
    (fun _ => ("LABEL_2", mkRat 99 100)) "   " "Positive" (mkRat 99 100)
    (by decide)

/-- C5: for every non-empty text whose raw label is Neutral, any confidence
and any keyword lists, `sentiment_main` is Neutral and `sentiment_sub` is
resolved purely by the keyword tie-break: `negHits > posHits` →
"Neutral (Dominantly Negative)", `posHits > negHits` →
"Neutral (Dominantly Positive)", equal → "Neutral (Pure Neutral)" —
whether or not the neutral-keyword override branch is taken. -/
theorem c5_neutral_label (kws : Keywords) (text : String) (score : ℚ)
    (h1 : ¬ pyStrip text = "") :
    adjust_sentiment kws text "Neutral" score =
      ("Neutral",
        if match_keywords (pyLower text) kws.negative >
            match_keywords (pyLower text) kws.positive then
          "Neutral (Dominantly Negative)"
        else if match_keywords (pyLower text) kws.positive >
            match_keywords (pyLower text) kws.negative then
          "Neutral (Dominantly Positive)"
        else "Neutral (Pure Neutral)") := by
  unfold adjust_sentiment
  rw [if_neg h1]
  by_cases hov : match_keywords (pyLower text) kws.neutral > 0 ∧
      score < mkRat 9 10
  · rw [if_pos hov]
    rcases Nat.lt_trichotomy (match_keywords (pyLower text) kws.positive)
      (match_keywords (pyLower text) kws.negative) with hlt | heq | hgt
    · rw [if_neg (by omega), if_pos hlt, if_pos hlt]
    · rw [if_neg (by omega), if_neg (by omega), if_neg (by omega),
        if_neg (by omega)]
    · rw [if_pos hgt, if_neg (by omega), if_pos hgt]
  · rw [if_neg hov, if_pos rfl]

/-- C5 witness: raw Neutral with one positive hit and no negative hits is
refined to (Neutral, "Neutral (Dominantly Positive)"). -/
theorem c5_neutral_label_witness :
    adjust_sentiment ⟨["good"], [], []⟩ "good" "Neutral" (mkRat 1 2) =
      ("Neutral", "Neutral (Dominantly Positive)") := by
  rw [c5_neutral_label ⟨["good"], [], []⟩ "good" (mkRat 1 2) (by decide)]
  decide

/-- C1 counterexample: raw label Positive, confidence 0.80, `posHits = 1`,
`negHits = 2` (margin exactly 1) — but one neutral keyword also matches, so
the neutral-keyword override fires and the output is NOT (Positive,
Positive), contradicting the claim for arbitrary keyword lists. -/
theorem c1_margin_one_counterexample :
    adjust_sentiment ⟨["good"], ["bad", "awful"], ["maybe"]⟩
        "good bad awful maybe" "Positive" (mkRat 4 5) =
      ("Neutral", "Neutral (Dominantly Negative)") ∧
    adjust_sentiment ⟨["good"], ["bad", "awful"], ["maybe"]⟩
        "good bad awful maybe" "Positive" (mkRat 4 5) ≠
      ("Positive", "Positive") := by decide

/-- C1 (amended): for a non-empty text at confidence 0.80 with NO matching
neutral keywords, a hit margin of at least 2 demotes only the sub-label to
the opposite dominant-neutral variant, and a margin of exactly 1 leaves the
output untouched; Positive and Negative behave symmetrically.  (With
`neuHits > 0` the neutral-keyword override fires instead, because 0.80 is
below the 0.9 override threshold.) -/
theorem c1_demotion_margin (kws : Keywords) (text : String)
    (h1 : ¬ pyStrip text = "")
    (hneu : match_keywords (pyLower text) kws.neutral = 0) :
    (match_keywords (pyLower text) kws.negative ≥
        match_keywords (pyLower text) kws.positive + 2 →
      adjust_sentiment kws text "Positive" (mkRat 4 5) =
        ("Positive", "Neutral (Dominantly Negative)")) ∧
    (match_keywords (pyLower text) kws.negative =
        match_keywords (pyLower text) kws.positive + 1 →
      adjust_sentiment kws text "Positive" (mkRat 4 5) =
        ("Positive", "Positive")) ∧
    (match_keywords (pyLower text) kws.positive ≥
        match_keywords (pyLower text) kws.negative + 2 →
      adjust_sentiment kws text "Negative" (mkRat 4 5) =
        ("Negative", "Neutral (Dominantly Positive)")) ∧
    (match_keywords (pyLower text) kws.positive =
        match_keywords (pyLower text) kws.negative + 1 →
      adjust_sentiment kws text "Negative" (mkRat 4 5) =
        ("Negative", "Negative")) := by
  have hnov : ¬ (match_keywords (pyLower text) kws.neutral > 0 ∧
      mkRat 4 5 < mkRat 9 10) := by
    intro hand
    omega
  refine ⟨?_, ?_, ?_, ?_⟩
  · intro hm
    unfold adjust_sentiment
    rw [if_neg h1, if_neg hnov]
    rw [if_neg (by decide : ¬ ("Positive" : String) = "Neutral")]
    rw [if_pos ⟨rfl, by decide, hm⟩]
  · intro hm
    unfold adjust_sentiment
    rw [if_neg h1, if_neg hnov]
    rw [if_neg (by decide : ¬ ("Positive" : String) = "Neutral")]
    rw [if_neg (by intro hand; omega)]
    rw [if_neg (by intro hand; exact absurd hand.1 (by decide))]
  · intro hm
    unfold adjust_sentiment
    rw [if_neg h1, if_neg hnov]
    rw [if_neg (by decide : ¬ ("Negative" : String) = "Neutral")]
    rw [if_neg (by intro hand; exact absurd hand.1 (by decide))]
    rw [if_pos ⟨rfl, by decide, hm⟩]
  · intro hm
    unfold adjust_sentiment
    rw [if_neg h1, if_neg hnov]
    rw [if_neg (by decide : ¬ ("Negative" : String) = "Neutral")]
    rw [if_neg (by intro hand; exact absurd hand.1 (by decide))]
    rw [if_neg (by intro hand; omega)]

/-- C1 witness: with no neutral keyword matching, margin 1 at confidence
0.80 is not demoted. -/
theorem c1_demotion_margin_witness :
    adjust_sentiment ⟨["good"], ["bad", "sad"], []⟩ "good bad sad" "Positive"
      (mkRat 4 5) = ("Positive", "Positive") :=
  (c1_demotion_margin ⟨["good"], ["bad", "sad"], []⟩ "good bad sad"
    (by decide) (by decide)).2.1 (by decide)

/-- C6 counterexample: for the keyword `a-a` (hyphen is a non-word
character) in the text `a-a-a` there are two whole-word occurrence
positions, but `re.findall` counts non-overlapping matches only, so
`match_keywords` returns 1 — the claimed equality with the total number of
occurrences fails on self-overlapping keywords. -/
theorem c6_overlap_counterexample :
    wholeWordOccs "a-a-a" "a-a" = 2 ∧
    match_keywords "a-a-a" ["a-a"] = 1 ∧
    match_keywords "a-a-a" ["a-a"] ≠ wholeWordOccs "a-a-a" "a-a" := by decide

/-- C6 (amended): `match_keywords` returns a non-negative total over the
keyword list of the non-overlapping, leftmost-first whole-word
case-insensitive match count; for keywords made of word characters
(letters, digits, underscore — where occurrences cannot overlap) this
equals the total number of whole-word occurrence positions of each
keyword; the result is 0 whenever the list is empty, and whole-word
boundaries mean `cat` does not match inside `category`. -/
theorem c6_match_keywords_spec :
    (∀ (T : String) (L : List String), 0 ≤ match_keywords T L) ∧
    (∀ T : String, match_keywords T [] = 0) ∧
    (∀ (T : String) (L : List String),
      (∀ k ∈ L, (pyLower k).data ≠ [] ∧
        ∀ c ∈ (pyLower k).data, isWordChar c = true) →
      match_keywords T L = (L.map (fun k => wholeWordOccs T k)).sum) ∧
    match_keywords "category" ["cat"] = 0 ∧
    match_keywords "the cat sat" ["cat"] = 1 ∧
    match_keywords "CAT" ["cat"] = 1 ∧
    match_keywords "good good" ["good"] = 2 :=
  ⟨fun _ _ => Nat.zero_le _, fun _ => rfl,
   fun T L h => match_keywords_sum T L h,
   by decide, by decide, by decide, by decide⟩

/-- C6 witness: the word-character keyword `cat` in `the cat sat` is
counted exactly as the number of whole-word occurrence positions. -/
theorem c6_match_keywords_spec_witness :
    match_keywords "the cat sat" ["cat"] =
      (["cat"].map (fun k => wholeWordOccs "the cat sat" k)).sum :=
  c6_match_keywords_spec.2.2.1 "the cat sat" ["cat"] (by decide)

/-- C7: for a batch of dict comments each containing a string `text`
entry, `analyze_batch` succeeds with exactly one result per comment in the
same order; result `i` is the analysis of comment `i` updated with every
non-`text` field of the comment — so a comment field overwrites a
same-named refinement field, while the `text` field of the result is never
overwritten and every extra comment field survives into the result. -/
theorem c7_batch_order_merge (kws : Keywords) (classify : String → String × ℚ)
    (comments : List PyVal)
    (h : ∀ c ∈ comments, ∃ d t, c = PyVal.dict d ∧
      lookupKey "text" d = some (Value.str t) ∧ (d.map Prod.fst).Nodup) :
    ∃ results, analyze_batch kws classify comments = Except.ok results ∧
      results.length = comments.length ∧
      ∀ i d t, comments.get? i = some (PyVal.dict d) →
        lookupKey "text" d = some (Value.str t) →
        (d.map Prod.fst).Nodup →
        ∃ r, results.get? i = some r ∧
          r = dictUpdate (analyze_sentiment kws classify t)
            (d.filter (fun kv => kv.1 != "text")) ∧
          lookupKey "text" r = some (Value.str t) ∧
          ∀ k v, ¬ k = "text" → lookupKey k d = some v →
            lookupKey k r = some v := by
  obtain ⟨rs, hok, hlen, hidx⟩ := analyze_batch_dicts kws classify
    (fun c hc => by
      obtain ⟨d, t, hd, hl, -⟩ := h c hc
      exact ⟨d, t, hd, hl⟩)
  refine ⟨rs, hok, hlen, ?_⟩
  intro i d t hc hl hnd
  refine ⟨_, hidx i d t hc hl, rfl, ?_, ?_⟩
  · rw [lookupKey_dictUpdate_none _ (lookupKey_filter_self d "text")]
    exact lookupKey_analyze_text kws classify t
  · intro k v hk hkv
    apply lookupKey_dictUpdate_some
    · exact nodup_filter_keys d _ hnd
    · rw [lookupKey_filter_other d hk]
      exact hkv

/-- C7 witness: a singleton batch with an extra `region` field round-trips
through `analyze_batch`. -/
theorem c7_batch_order_merge_witness :
    ∃ results, analyze_batch ⟨[], [], []⟩ (fun _ => ("LABEL_2", mkRat 1 2))
        [PyVal.dict [("text", Value.str "ok"), ("region", Value.str "north")]] =
          Except.ok results ∧
      results.length =
        [PyVal.dict [("text", Value.str "ok"),
          ("region", Value.str "north")]].length ∧
      ∀ i d t,
        [PyVal.dict [("text", Value.str "ok"),
          ("region", Value.str "north")]].get? i = some (PyVal.dict d) →
        lookupKey "text" d = some (Value.str t) →
        (d.map Prod.fst).Nodup →
        ∃ r, results.get? i = some r ∧
          r = dictUpdate (analyze_sentiment ⟨[], [], []⟩
              (fun _ => ("LABEL_2", mkRat 1 2)) t)
            (d.filter (fun kv => kv.1 != "text")) ∧
          lookupKey "text" r = some (Value.str t) ∧
          ∀ k v, ¬ k = "text" → lookupKey k d = some v →
            lookupKey k r = some v :=
  c7_batch_order_merge ⟨[], [], []⟩ (fun _ => ("LABEL_2", mkRat 1 2))
    [PyVal.dict [("text", Value.str "ok"), ("region", Value.str "north")]]
    (by
      intro c hc
      rw [List.mem_singleton] at hc
      subst hc
      exact ⟨_, "ok", rfl, by decide, by decide⟩)

/-- C8: `load_keywords` never raises: whenever its body fails — missing or
unreadable file, undecodable content, missing `keyword` column, or no
valid keywords — the exception is caught and the empty list is returned
instead of propagating. -/
theorem c8_load_keywords_fail_open (path : String)
    (read : String → ReadResult) (e : String)
    (h : load_keywords_body path read = .error e) :
    load_keywords path read = [] := by
  unfold load_keywords
  rw [h]

/-- C8 witness: a source without a `keyword` column yields the empty list,
not an exception. -/
theorem c8_load_keywords_fail_open_witness :
    load_keywords "bad.csv" readMissingCol = [] :=
  c8_load_keywords_fail_open "bad.csv" readMissingCol
    ("bad.csv" ++ " must contain a keyword column") rfl

/-- C9 counterexample: a `keyword` cell holding only whitespace survives
`dropna` and the non-empty-list check, so `load_keywords` returns a list
containing the empty string — the claimed non-emptiness of every returned
keyword fails. -/
theorem c9_empty_keyword_counterexample :
    load_keywords "keywords.csv" readWhitespaceKeyword = ["ok", ""] ∧
    "" ∈ load_keywords "keywords.csv" readWhitespaceKeyword := by decide

/-- C9 (amended): every string in the list returned by `load_keywords` is
lowercase and whitespace-trimmed; it need not be non-empty (a
whitespace-only source cell yields the empty string — only the list as a
whole is checked for non-emptiness). -/
theorem c9_keywords_lower_trimmed (path : String)
    (read : String → ReadResult) (s : String)
    (h : s ∈ load_keywords path read) :
    pyLower s = s ∧ pyStrip s = s := by
  unfold load_keywords at h
  cases hb : load_keywords_body path read with
  | error e => rw [hb] at h; simp at h
  | ok l =>
    rw [hb] at h
    replace h : s ∈ l := h
    unfold load_keywords_body at hb
    split at hb
    · exact absurd hb (by simp)
    · split at hb
      · exact absurd hb (by simp)
      · simp only [] at hb
        split at hb
        · exact absurd hb (by simp)
        · replace hb := Except.ok.inj hb
          subst hb
          obtain ⟨c, -, rfl⟩ := List.mem_map.mp h
          exact ⟨pyLower_pyStrip_pyLower c, pyStrip_pyStrip (pyLower c)⟩

/-- C9 witness: the surviving keyword `ok` of the counterexample source is
lowercase and trimmed. -/
theorem c9_keywords_lower_trimmed_witness :
    pyLower "ok" = "ok" ∧ pyStrip "ok" = "ok" :=
  c9_keywords_lower_trimmed "keywords.csv" readWhitespaceKeyword "ok"
    (by decide)

/-- C10: any batch element that is not a dict makes `analyze_batch` raise
(the text is coerced with `str(comment)`, but the unconditional merge step
calls `comment.items()`, which fails on non-dicts), so the whole batch
errors out rather than producing a result. -/
theorem c10_nondict_raises (kws : Keywords) (classify : String → String × ℚ)
    (comments : List PyVal) (h : ∃ c ∈ comments, c.isDict = false) :
    ∃ e, analyze_batch kws classify comments = Except.error e := by
  cases hb : analyze_batch kws classify comments with
  | error e => exact ⟨e, rfl⟩
  | ok rs =>
    obtain ⟨c, hc, hcd⟩ := h
    have hdict := analyze_batch_ok_dict kws classify hb c hc
    rw [hdict] at hcd
    simp at hcd

/-- C10 witness: a batch holding the plain string `great` errors out. -/
theorem c10_nondict_raises_witness :
    ∃ e, analyze_batch ⟨[], [], []⟩ (fun _ => ("LABEL_2", mkRat 1 2))
      [PyVal.str "great"] = Except.error e :=
  c10_nondict_raises ⟨[], [], []⟩ (fun _ => ("LABEL_2", mkRat 1 2))
    [PyVal.str "great"] ⟨PyVal.str "great", List.mem_singleton.mpr rfl, rfl⟩
